import Mathlib

/-
Verification of the Geometry Segmentation & Reconstruction Engine of the
container-geometry-analyzer repository.

The Python sources are shallowly embedded over exact rationals (ℚ): float
arithmetic is idealized as exact arithmetic, numpy array operations become
list operations, and the scipy numeric kernels that the verified properties
do not depend on (savgol_filter, curve_fit, find_peaks, gaussian_filter1d,
np.gradient) are abstracted as explicit function parameters.  Comparisons
that the Python code performs on square roots (np.std, np.corrcoef) are
embedded as the equivalent comparisons on squared quantities, which is
noted at each definition.

Sources embedded:
  - src/container_geometry_analyzer_gui_v3_11_8.py
      (find_optimal_transitions, find_optimal_transitions_improved,
       segment_and_fit_optimized, hermite_spline_transition,
       create_enhanced_profile)
  - src/src/container_geometry_analyzer_gui_v3_11_8.py
      (four-model fit selection of segment_and_fit_optimized:
       complexity penalty, stable best-fit choice, cylinder-preference fix)
  - src/src/stability_detection.py
      (predict_segment_count and its three heuristics,
       find_stability_transitions, find_optimal_transitions_hybrid)
-/

namespace ContainerGeometry

/-! ## Basic numpy-style helpers -/

/-- `np.linspace a b n` : `n` evenly spaced samples from `a` to `b`,
endpoint included. -/
def linspace (a b : ℚ) (n : ℕ) : List ℚ :=
  if n = 0 then []
  else if n = 1 then [a]
  else (List.range n).map fun k : ℕ => a + (b - a) * (k : ℚ) / ((n : ℚ) - 1)

/-- `np.clip x lo hi` (numpy returns `hi` when `lo > hi`). -/
def clip (x lo hi : ℚ) : ℚ := min (max x lo) hi

theorem clip_mem (x lo hi : ℚ) (h : lo ≤ hi) : lo ≤ clip x lo hi ∧ clip x lo hi ≤ hi :=
  ⟨le_min (le_max_right x lo) h, min_le_right _ _⟩

/-! ## Hermite spline transition

Embeds `hermite_spline_transition` of
src/container_geometry_analyzer_gui_v3_11_8.py (lines 624-652).
`GEOMETRIC_CONSTRAINTS['radius_safety_margin'] = 0.8`. -/

/-- The cubic Hermite interpolant evaluated at parameter `t`
(`h00*r1 + h10*r2 + h01*m0 + h11*m1` of the source). -/
def hermiteValue (r1 r2 m0 m1 t : ℚ) : ℚ :=
  (2 * t ^ 3 - 3 * t ^ 2 + 1) * r1 + (-2 * t ^ 3 + 3 * t ^ 2) * r2 +
    (t ^ 3 * (t - 1)) * m0 + (t ^ 2 * (t - 1)) * m1

/-- `hermite_spline_transition(z1, r1, slope1, z2, r2, slope2, num_points, tension)`:
returns the pair of the height samples and the radius samples.  The radius
samples are clipped to `[min r1 r2 * 0.8, max r1 r2 * 1.2]` and the two end
entries are then overwritten with `r1` and `r2` exactly, as in the source. -/
def hermite_spline_transition (z1 r1 slope1 z2 r2 slope2 : ℚ)
    (num_points : ℕ) (tension : ℚ) : List ℚ × List ℚ :=
  let dz := z2 - z1
  if dz ≤ 0 then
    (linspace z1 z2 num_points, (List.range num_points).map fun _ => (r1 + r2) / 2)
  else
    let ts := linspace 0 1 num_points
    let z_trans := ts.map fun t => z1 + t * dz
    let m0 := slope1 * dz * tension
    let m1 := slope2 * dz * tension
    let r_min := min r1 r2 * (4 / 5)
    let r_max := max r1 r2 * (6 / 5)
    let r_clipped := ts.map fun t => clip (hermiteValue r1 r2 m0 m1 t) r_min r_max
    (z_trans, (r_clipped.set 0 r1).set (num_points - 1) r2)

theorem linspace_length (a b : ℚ) (n : ℕ) : (linspace a b n).length = n := by
  unfold linspace
  split
  · simp_all
  · split
    · simp_all
    · rw [List.length_map, List.length_range]

/-- C7: for every call to the Hermite spline transition with `z2 > z1` (and
nonnegative boundary radii), every interior radius of the returned arc lies in
`[min r1 r2 * 0.8, max r1 r2 * 1.2]`, and the first and last returned radii
equal exactly `r1` and `r2`. -/
theorem hermite_transition_bounds (z1 r1 s1 z2 r2 s2 tension : ℚ) (n : ℕ)
    (hz : z1 < z2) (hr1 : 0 ≤ r1) (hr2 : 0 ≤ r2) (hn : 2 ≤ n) :
    (∀ k v, 0 < k → k < n - 1 →
        (hermite_spline_transition z1 r1 s1 z2 r2 s2 n tension).2[k]? = some v →
        min r1 r2 * (4 / 5) ≤ v ∧ v ≤ max r1 r2 * (6 / 5)) ∧
    (hermite_spline_transition z1 r1 s1 z2 r2 s2 n tension).2.head? = some r1 ∧
    (hermite_spline_transition z1 r1 s1 z2 r2 s2 n tension).2.getLast? = some r2 := by
  have hdz : ¬ (z2 - z1 ≤ 0) := by linarith
  have hlohi : min r1 r2 * (4 / 5) ≤ max r1 r2 * (6 / 5) := by
    have h0 : (0 : ℚ) ≤ min r1 r2 := le_min hr1 hr2
    have h1 : min r1 r2 * (4 / 5) ≤ min r1 r2 * 1 := by
      apply mul_le_mul_of_nonneg_left _ h0
      norm_num
    have h2 : max r1 r2 * 1 ≤ max r1 r2 * (6 / 5) := by
      apply mul_le_mul_of_nonneg_left _ (le_trans h0 (min_le_max))
      norm_num
    calc min r1 r2 * (4 / 5) ≤ min r1 r2 * 1 := h1
      _ = min r1 r2 := mul_one _
      _ ≤ max r1 r2 := min_le_max
      _ = max r1 r2 * 1 := (mul_one _).symm
      _ ≤ max r1 r2 * (6 / 5) := h2
  simp only [hermite_spline_transition, if_neg hdz]
  set ts := linspace 0 1 n with hts
  set m0 := s1 * (z2 - z1) * tension
  set m1 := s2 * (z2 - z1) * tension
  set lo := min r1 r2 * (4 / 5)
  set hi := max r1 r2 * (6 / 5)
  set rc := ts.map fun t => clip (hermiteValue r1 r2 m0 m1 t) lo hi with hrc
  have hlen : rc.length = n := by
    rw [hrc, List.length_map, hts, linspace_length]
  have hlenset : (((rc.set 0 r1).set (n - 1) r2)).length = n := by
    simp [List.length_set, hlen]
  refine ⟨?_, ?_, ?_⟩
  · intro k v hk0 hkn hget
    have hkne1 : n - 1 ≠ k := by omega
    have hkne0 : (0 : ℕ) ≠ k := by omega
    rw [List.getElem?_set_ne hkne1, List.getElem?_set_ne hkne0, hrc,
      List.getElem?_map] at hget
    cases hx : ts[k]? with
    | none => rw [hx] at hget; simp at hget
    | some t =>
        rw [hx] at hget
        simp only [Option.map_some'] at hget
        have := clip_mem (hermiteValue r1 r2 m0 m1 t) lo hi hlohi
        rw [Option.some_inj] at hget
        rw [← hget]
        exact this
  · rw [List.head?_eq_getElem?]
    have h1 : n - 1 ≠ 0 := by omega
    rw [List.getElem?_set_ne h1, List.getElem?_set_eq_of_lt r1 (by omega)]
  · rw [List.getLast?_eq_getElem?, hlenset,
      List.getElem?_set_eq_of_lt r2 (by rw [List.length_set]; omega)]

/-- Concrete instantiation of C7 at `z1 = 0, r1 = 1, z2 = 1, r2 = 2`,
25 points, tension `0.6`. -/
theorem hermite_transition_bounds_witness :
    ((0 : ℚ) < 1 ∧ (0 : ℚ) ≤ 1 ∧ (0 : ℚ) ≤ 2 ∧ 2 ≤ 25) ∧
    ((∀ k v, 0 < k → k < 25 - 1 →
        (hermite_spline_transition 0 1 0 1 2 0 25 (3/5)).2[k]? = some v →
        min (1 : ℚ) 2 * (4 / 5) ≤ v ∧ v ≤ max (1 : ℚ) 2 * (6 / 5)) ∧
      (hermite_spline_transition 0 1 0 1 2 0 25 (3/5)).2.head? = some 1 ∧
      (hermite_spline_transition 0 1 0 1 2 0 25 (3/5)).2.getLast? = some 2) :=
  ⟨⟨by decide, by decide, by decide, by decide⟩,
    hermite_transition_bounds 0 1 0 1 2 0 (3/5) 25
      (by decide) (by decide) (by decide) (by decide)⟩

/-! ## Shape-fit selection

Embeds the four-model selection of `segment_and_fit_optimized` in
src/src/container_geometry_analyzer_gui_v3_11_8.py (lines 754-918).  The four
bounded `curve_fit` calls are abstracted as `Option` inputs (a `none` is a
fit that raised / failed to converge); everything from the candidate list on
is embedded concretely. -/

inductive ShapeKind where
  | cylinder
  | frustum
  | cone
  | sphere_cap
deriving DecidableEq, Repr

/-- A surviving fit candidate: shape tag, parameter vector, percent error
(the `(shape_name, params, error_pct)` triples of `fit_results`). -/
structure FitCandidate where
  kind : ShapeKind
  params : List ℚ
  errorPct : ℚ
deriving DecidableEq, Repr

/-- Complexity penalty applied before ranking (lines 838-857): +0.5 points
for a frustum and +0.2 for a cone, only when the raw error is below 3%. -/
def adjustedError (c : FitCandidate) : ℚ :=
  if c.kind = ShapeKind.frustum ∧ c.errorPct < 3 then c.errorPct + 1/2
  else if c.kind = ShapeKind.cone ∧ c.errorPct < 3 then c.errorPct + 1/5
  else c.errorPct

/-- `adjusted_results.sort(key=...)[0]` with Python's stable sort: the first
candidate attaining the minimal adjusted error (replacement only on a
strictly smaller key). -/
def pickBest (l : List FitCandidate) : Option FitCandidate :=
  l.foldl (fun acc c =>
    match acc with
    | none => some c
    | some b => if adjustedError c < adjustedError b then some c else some b) none

/-- `next((f for f in fit_results if f[0] == 'cylinder'), None)`. -/
def findCylinderFit (l : List FitCandidate) : Option FitCandidate :=
  l.find? fun c => c.kind == ShapeKind.cylinder

/-- The cylinder-preference fix (lines 871-907): a selected frustum whose two
end radii agree within 5% relatively is replaced by the cylinder candidate
when its raw percent error is within 1.2× the frustum's, or by a synthesized
mean-radius cylinder when no cylinder candidate converged. -/
def cylinderPreferenceFix (fit_results : List FitCandidate) (best : FitCandidate) :
    FitCandidate :=
  match best.kind, best.params with
  | ShapeKind.frustum, r1 :: r2 :: _ =>
      if 0 < max r1 r2 then
        if |r2 - r1| / max r1 r2 < 1/20 then
          match findCylinderFit fit_results with
          | some cyl =>
              if cyl.errorPct ≤ best.errorPct * (6/5) then cyl else best
          | none =>
              { kind := ShapeKind.cylinder, params := [(r1 + r2) / 2],
                errorPct := best.errorPct }
        else best
      else best
  | _, _ => best

/-- Best-fit selection for one segment (lines 834-918): stable minimum of
the complexity-adjusted errors, then the cylinder-preference fix; when every
fit failed, the naive-cylinder fallback with zero recorded error. -/
def selectFit (fit_results : List FitCandidate) (guess_r : ℚ) : FitCandidate :=
  match pickBest fit_results with
  | none => { kind := ShapeKind.cylinder, params := [guess_r], errorPct := 0 }
  | some best => cylinderPreferenceFix fit_results best

/-- The candidate list as built by the four `try` blocks (lines 757-832):
each converged fit appends one candidate, in the source order cylinder,
frustum, cone, sphere cap.  Parameter tuples carry the fitted parameters
followed by the percent error. -/
def buildFitResults (cyl : Option (ℚ × ℚ)) (frust : Option (ℚ × ℚ × ℚ × ℚ))
    (cone : Option (ℚ × ℚ × ℚ)) (sphere : Option (ℚ × ℚ)) : List FitCandidate :=
  (cyl.toList.map fun p => ⟨ShapeKind.cylinder, [p.1], p.2⟩) ++
  (frust.toList.map fun p => ⟨ShapeKind.frustum, [p.1, p.2.1, p.2.2.1], p.2.2.2⟩) ++
  (cone.toList.map fun p => ⟨ShapeKind.cone, [p.1, p.2.1], p.2.2⟩) ++
  (sphere.toList.map fun p => ⟨ShapeKind.sphere_cap, [p.1], p.2⟩)

/-- C1: the shape-fitting stage attempts all four primitive volume models —
whenever all four bounded fits converge, the candidate list holds exactly one
candidate of each kind, in source order — and the selected shape kind of a
segment can be each of the four kinds. -/
theorem all_four_models_attempted :
    (∀ rc ec r1 r2 hf ef rb hc ecn rs es : ℚ,
      (buildFitResults (some (rc, ec)) (some (r1, r2, hf, ef))
          (some (rb, hc, ecn)) (some (rs, es))).map FitCandidate.kind =
        [ShapeKind.cylinder, ShapeKind.frustum, ShapeKind.cone,
          ShapeKind.sphere_cap]) ∧
    (∃ l g, (selectFit l g).kind = ShapeKind.cylinder) ∧
    (∃ l g, (selectFit l g).kind = ShapeKind.frustum) ∧
    (∃ l g, (selectFit l g).kind = ShapeKind.cone) ∧
    (∃ l g, (selectFit l g).kind = ShapeKind.sphere_cap) := by
  refine ⟨fun _ _ _ _ _ _ _ _ _ _ _ => rfl,
    ⟨[⟨ShapeKind.cylinder, [1], 1⟩], 1, rfl⟩, ?_,
    ⟨[⟨ShapeKind.cone, [1, 5], 1⟩], 1, rfl⟩,
    ⟨[⟨ShapeKind.sphere_cap, [1], 1⟩], 1, rfl⟩⟩
  refine ⟨[⟨ShapeKind.frustum, [1, 2, 5], 1⟩], 1, ?_⟩
  have hm : max (1 : ℚ) 2 = 2 := max_eq_right (by norm_num)
  have h1 : (0 : ℚ) < max 1 2 := by rw [hm]; norm_num
  have h2 : ¬ |(2 : ℚ) - 1| / max 1 2 < 1/20 := by
    rw [hm, show |(2 : ℚ) - 1| = 1 by rw [show (2 : ℚ) - 1 = 1 by norm_num]; exact abs_one]
    norm_num
  show (cylinderPreferenceFix [⟨ShapeKind.frustum, [1, 2, 5], 1⟩]
      ⟨ShapeKind.frustum, [1, 2, 5], 1⟩).kind = ShapeKind.frustum
  simp only [cylinderPreferenceFix]
  rw [if_pos h1, if_neg h2]

/-- C4 (amended): when the selected candidate is a frustum whose end radii
differ relatively by less than 5%, the fitter substitutes the cylinder
candidate exactly when its raw error is within 1.2× the frustum's error,
keeps the frustum otherwise, and synthesizes a mean-radius cylinder when no
cylinder candidate exists. -/
theorem cylinder_preference_correction (l : List FitCandidate) (g r1 r2 e : ℚ)
    (rest : List ℚ)
    (hb : pickBest l = some ⟨ShapeKind.frustum, r1 :: r2 :: rest, e⟩)
    (hr : 0 < max r1 r2) (hd : |r2 - r1| / max r1 r2 < 1/20) :
    (∀ c, findCylinderFit l = some c → c.errorPct ≤ e * (6/5) →
        selectFit l g = c) ∧
    (∀ c, findCylinderFit l = some c → ¬ c.errorPct ≤ e * (6/5) →
        selectFit l g = ⟨ShapeKind.frustum, r1 :: r2 :: rest, e⟩) ∧
    (findCylinderFit l = none →
        selectFit l g = ⟨ShapeKind.cylinder, [(r1 + r2) / 2], e⟩) := by
  have hsel : selectFit l g =
      cylinderPreferenceFix l ⟨ShapeKind.frustum, r1 :: r2 :: rest, e⟩ := by
    unfold selectFit
    rw [hb]
  refine ⟨?_, ?_, ?_⟩
  · intro c hc hle
    rw [hsel]
    unfold cylinderPreferenceFix
    simp only [if_pos hr, if_pos hd, hc, if_pos hle]
  · intro c hc hle
    rw [hsel]
    unfold cylinderPreferenceFix
    simp only [if_pos hr, if_pos hd, hc, if_neg hle]
  · intro hc
    rw [hsel]
    unfold cylinderPreferenceFix
    simp only [if_pos hr, if_pos hd, hc]

/-- C4 counterexample to the unconditional 2%-scenario reading: when the
converged cylinder candidate's raw error (10%) exceeds 1.2× the selected
frustum's error (1%), a frustum whose end radii differ by exactly 2% is kept
as a frustum, not returned as a cylinder. -/
theorem near_degenerate_frustum_kept :
    (selectFit [⟨ShapeKind.cylinder, [1], 10⟩,
        ⟨ShapeKind.frustum, [1, 49/50, 5], 1⟩] 1).kind = ShapeKind.frustum ∧
    |(49/50 : ℚ) - 1| / max (1 : ℚ) (49/50) = 1/50 := by
  have hm : max (1 : ℚ) (49/50) = 1 := max_eq_left (by norm_num)
  have habs : |(49/50 : ℚ) - 1| = 1/50 := by
    rw [show (49/50 : ℚ) - 1 = -(1/50) by norm_num, abs_neg, abs_of_pos (by norm_num)]
  have hdiv : |(49/50 : ℚ) - 1| / max (1 : ℚ) (49/50) = 1/50 := by
    rw [hm, habs, div_one]
  refine ⟨?_, hdiv⟩
  have hadjf : adjustedError ⟨ShapeKind.frustum, [1, 49/50, 5], 1⟩ = 3/2 := by
    simp only [adjustedError]
    norm_num
  have hadjc : adjustedError ⟨ShapeKind.cylinder, [1], 10⟩ = 10 := by
    simp only [adjustedError]
    norm_num
  have hpick : pickBest [⟨ShapeKind.cylinder, [1], 10⟩,
      ⟨ShapeKind.frustum, [1, 49/50, 5], 1⟩] =
      some ⟨ShapeKind.frustum, [1, 49/50, 5], 1⟩ := by
    have hlt : adjustedError ⟨ShapeKind.frustum, [1, 49/50, 5], 1⟩ <
        adjustedError ⟨ShapeKind.cylinder, [1], 10⟩ := by
      rw [hadjf, hadjc]; norm_num
    simp only [pickBest, List.foldl]
    rw [if_pos hlt]
  have hfind : findCylinderFit [⟨ShapeKind.cylinder, [1], 10⟩,
      ⟨ShapeKind.frustum, [1, 49/50, 5], 1⟩] =
      some ⟨ShapeKind.cylinder, [1], 10⟩ := rfl
  have hsel : selectFit [⟨ShapeKind.cylinder, [1], 10⟩,
      ⟨ShapeKind.frustum, [1, 49/50, 5], 1⟩] 1 =
      cylinderPreferenceFix [⟨ShapeKind.cylinder, [1], 10⟩,
        ⟨ShapeKind.frustum, [1, 49/50, 5], 1⟩]
        ⟨ShapeKind.frustum, [1, 49/50, 5], 1⟩ := by
    unfold selectFit
    rw [hpick]
  rw [hsel]
  simp only [cylinderPreferenceFix, hfind]
  rw [if_pos (by rw [hm]; norm_num : (0 : ℚ) < max 1 (49/50)),
    if_pos (by rw [hdiv]; norm_num : |(49/50 : ℚ) - 1| / max 1 (49/50) < 1/20),
    if_neg (by norm_num : ¬ (10 : ℚ) ≤ 1 * (6/5))]

/-- The near-degenerate example radii have positive maximum (helper fact for
the C4 instantiation). -/
theorem nearDegenerate_rmax_pos : (0 : ℚ) < max 1 (49/50) :=
  lt_max_of_lt_left (by norm_num)

/-- The near-degenerate example radii differ relatively by 2% < 5% (helper
fact for the C4 instantiation). -/
theorem nearDegenerate_reldiff_small : |(49/50 : ℚ) - 1| / max 1 (49/50) < 1/20 := by
  rw [max_eq_left (by norm_num : (49/50 : ℚ) ≤ 1),
    show (49/50 : ℚ) - 1 = -(1/50) by norm_num, abs_neg,
    abs_of_pos (by norm_num : (0 : ℚ) < 1/50), div_one]
  norm_num

/-- Concrete instantiation of the amended C4: a lone near-degenerate frustum
candidate (radii 1 and 0.98) is converted to the synthesized mean-radius
cylinder. -/
theorem cylinder_preference_correction_witness :
    (pickBest [⟨ShapeKind.frustum, [1, 49/50, 5], 1⟩] =
        some ⟨ShapeKind.frustum, [1, 49/50, 5], 1⟩ ∧
      (0 : ℚ) < max 1 (49/50) ∧ |(49/50 : ℚ) - 1| / max 1 (49/50) < 1/20) ∧
    (findCylinderFit [⟨ShapeKind.frustum, [1, 49/50, 5], 1⟩] = none →
      selectFit [⟨ShapeKind.frustum, [1, 49/50, 5], 1⟩] 7 =
        ⟨ShapeKind.cylinder, [(1 + 49/50) / 2], 1⟩) :=
  ⟨⟨rfl, nearDegenerate_rmax_pos, nearDegenerate_reldiff_small⟩,
    (cylinder_preference_correction [⟨ShapeKind.frustum, [1, 49/50, 5], 1⟩]
      7 1 (49/50) 1 [5] rfl nearDegenerate_rmax_pos nearDegenerate_reldiff_small).2.2⟩

/-! ## Improved transition detection: combined score and adaptive threshold

Embeds the concrete arithmetic of `find_optimal_transitions_improved` in
src/container_geometry_analyzer_gui_v3_11_8.py (lines 344-514).  The
`np.gradient` first/second derivative sequences are inputs here. -/

/-- `np.diff`: consecutive differences `a[i+1] - a[i]`. -/
def diffList (l : List ℚ) : List ℚ := (l.zip l.tail).map fun p => p.2 - p.1

/-- `np.min` (0 on the empty array, which numpy rejects). -/
def listMin : List ℚ → ℚ
  | [] => 0
  | x :: xs => xs.foldl min x

/-- `np.max` (0 on the empty array, which numpy rejects). -/
def listMax : List ℚ → ℚ
  | [] => 0
  | x :: xs => xs.foldl max x

/-- `normalize_score` (lines 402-406): min-max normalization onto `[0,1]`,
all-zero when the range is below `1e-10`. -/
def normalize_score (arr : List ℚ) : List ℚ :=
  let mn := listMin arr
  let mx := listMax arr
  if mx - mn < 1/10^10 then arr.map fun _ => 0
  else arr.map fun x => (x - mn) / (mx - mn)

/-- The combined transition score (lines 398-409):
`0.6 * normalize(|np.diff(first_deriv)|) + 0.4 * normalize(|second_deriv[:-1]|)`,
summed elementwise. -/
def combinedScore (first_deriv second_deriv : List ℚ) : List ℚ :=
  let first_deriv_change := (diffList first_deriv).map fun x => |x|
  let second_deriv_abs := second_deriv.dropLast.map fun x => |x|
  ((normalize_score first_deriv_change).zip (normalize_score second_deriv_abs)).map
    fun p => (3/5) * p.1 + (2/5) * p.2

/-- The SNR → percentile map of the adaptive threshold (lines 422-432). -/
def percentileForSnr (snr : ℚ) : ℕ :=
  if snr > 100 then 70
  else if snr > 50 then 75
  else if snr > 20 then 80
  else if snr > 10 then 85
  else 90

/-- C5: the candidate score is `0.6·normalize(|Δ firstDeriv|) + 0.4·
normalize(|secondDeriv|)` elementwise, each min-max normalization yields all
zeros when the value range is below `1e-10` and otherwise maps `x` to
`(x - min)/(max - min)`, and the SNR → percentile table is exactly
`>100 ↦ 70`, `>50 ↦ 75`, `>20 ↦ 80`, `>10 ↦ 85`, else `90`. -/
theorem combined_score_and_percentile :
    (∀ fd sd : List ℚ, ∀ i : ℕ, ∀ a b : ℚ,
      (normalize_score ((diffList fd).map fun x => |x|))[i]? = some a →
      (normalize_score (sd.dropLast.map fun x => |x|))[i]? = some b →
      (combinedScore fd sd)[i]? = some ((3/5) * a + (2/5) * b)) ∧
    (∀ arr : List ℚ, listMax arr - listMin arr < 1/10^10 →
      normalize_score arr = arr.map fun _ => 0) ∧
    (∀ arr : List ℚ, ¬ listMax arr - listMin arr < 1/10^10 →
      normalize_score arr = arr.map fun x =>
        (x - listMin arr) / (listMax arr - listMin arr)) ∧
    (∀ snr : ℚ,
      (100 < snr → percentileForSnr snr = 70) ∧
      (50 < snr → snr ≤ 100 → percentileForSnr snr = 75) ∧
      (20 < snr → snr ≤ 50 → percentileForSnr snr = 80) ∧
      (10 < snr → snr ≤ 20 → percentileForSnr snr = 85) ∧
      (snr ≤ 10 → percentileForSnr snr = 90)) := by
  refine ⟨?_, ?_, ?_, ?_⟩
  · intro fd sd i a b ha hb
    unfold combinedScore
    rw [List.getElem?_map]
    have hz : ((normalize_score ((diffList fd).map fun x => |x|)).zip
        (normalize_score (sd.dropLast.map fun x => |x|)))[i]? = some (a, b) :=
      List.getElem?_zip_eq_some.mpr ⟨ha, hb⟩
    rw [hz]
    rfl
  · intro arr h
    unfold normalize_score
    rw [if_pos h]
  · intro arr h
    unfold normalize_score
    rw [if_neg h]
  · intro snr
    unfold percentileForSnr
    refine ⟨fun h1 => by rw [if_pos h1], fun h1 h2 => ?_, fun h1 h2 => ?_,
      fun h1 h2 => ?_, fun h1 => ?_⟩
    · rw [if_neg (by linarith), if_pos h1]
    · rw [if_neg (by linarith), if_neg (by linarith), if_pos h1]
    · rw [if_neg (by linarith), if_neg (by linarith), if_neg (by linarith), if_pos h1]
    · rw [if_neg (by linarith), if_neg (by linarith), if_neg (by linarith),
        if_neg (by linarith)]

/-- Concrete instantiation of C5's percentile table: SNR 200 selects the
70th percentile and SNR 5 the 90th. -/
theorem combined_score_and_percentile_witness :
    ((100 : ℚ) < 200 ∧ percentileForSnr 200 = 70) ∧
    ((5 : ℚ) ≤ 10 ∧ percentileForSnr 5 = 90) :=
  ⟨⟨by decide, (combined_score_and_percentile.2.2.2 200).1 (by decide)⟩,
    ⟨by decide, (combined_score_and_percentile.2.2.2 5).2.2.2.2 (by decide)⟩⟩

/-! ## Improved transition detection: advanced validation

Embeds the validation loop of `find_optimal_transitions_improved`
(lines 462-514).  The three criteria, which the Python code states on
`np.std` / `np.corrcoef` / `np.polyfit` values, are embedded as the exactly
equivalent comparisons on squared quantities (noted at each definition). -/

/-- `np.mean` (0 on the empty array). -/
def meanQ (l : List ℚ) : ℚ := l.sum / l.length

/-- Population variance, `np.var` = `np.std` squared. -/
def varQ (l : List ℚ) : ℚ := meanQ (l.map fun x => (x - meanQ l) ^ 2)

/-- Mean product of deviations (the covariance normalization used
consistently by `np.corrcoef`, whose value is scale-invariant). -/
def covQ (x y : List ℚ) : ℚ :=
  meanQ ((x.zip y).map fun p => (p.1 - meanQ x) * (p.2 - meanQ y))

/-- `area[seg_start : seg_end + 1]`. -/
def segSlice (area : List ℚ) (s e : ℕ) : List ℚ := (area.drop s).take (e - s + 1)

/-- Criterion 1 (lines 474-476): `np.std(seg) / (np.mean(seg) + 1e-8) > 0.05`.
For a positive denominator `d` the comparison `std > d/20` is exactly
`var > (d/20)^2`; for `d ≤ 0` it is false (`std ≥ 0`). -/
def has_variation (seg : List ℚ) : Bool :=
  let d := meanQ seg + 1/10^8
  decide (0 < d) && decide ((d / 20) ^ 2 < varQ seg)

/-- Criterion 2 (lines 478-485): `|np.corrcoef(seg[:-1], seg[1:])[0,1]| > 0.4`.
With both variances positive, `|cov|/(σx·σy) > 0.4` is exactly
`25·cov² > 4·varx·vary`; when either variance vanishes the float
correlation is NaN and the comparison is false. -/
def has_structure (seg : List ℚ) : Bool :=
  if 3 < seg.length then
    let x := seg.dropLast
    let y := seg.drop 1
    decide (0 < varQ x) && decide (0 < varQ y) &&
      decide (4 * varQ x * varQ y < 25 * covQ x y ^ 2)
  else true

/-- The R² comparison of criterion 3 on the precomputed centered sums:
with `ssRes` the optimal residual sum of squares of the degree-1
least-squares fit in closed form (`syy − szy²/szz`) and `ssTot = syy`, the
source comparison `1 − ssRes/(ssTot + 1e-8) > 0.65` is exactly
`ssRes < 0.35·(ssTot + 1e-8)`. -/
def rsqAbove65 (szz syy szy : ℚ) : Bool :=
  decide (syy - szy ^ 2 / szz < ((7 : ℚ)/20) * (syy + (1 : ℚ)/10^8))

/-- Criterion 3 (lines 487-496): R² of the degree-1 least-squares fit of the
segment against `np.arange(len(seg))` exceeds 0.65. -/
def fits_model (seg : List ℚ) : Bool :=
  if 2 < seg.length then
    let z : List ℚ := (List.range seg.length).map fun k : ℕ => (k : ℚ)
    let szz : ℚ := (z.map fun t => (t - meanQ z) ^ 2).sum
    let syy : ℚ := (seg.map fun v => (v - meanQ seg) ^ 2).sum
    let szy : ℚ := ((z.zip seg).map fun p => (p.1 - meanQ z) * (p.2 - meanQ seg)).sum
    rsqAbove65 szz syy szy
  else true

/-- `sum([has_variation, has_structure, fits_model])` (line 500). -/
def passedCriteria (seg : List ℚ) : ℕ :=
  (if has_variation seg then 1 else 0) + (if has_structure seg then 1 else 0) +
    (if fits_model seg then 1 else 0)

/-- `sorted(list(set(v)))` for index lists. -/
def dedupSortNat (v : List ℕ) : List ℕ := v.dedup.insertionSort (· ≤ ·)

/-- The advanced-validation loop (lines 463-503): `i` is the running segment
index, `L` the length of the whole transition list (for the boundary test
`i in [0, L - 2]`); a segment shorter than `min_points` is skipped, and a
segment's end boundary is appended when at least 2 of the 3 criteria hold or
the segment is the first or last one. -/
def validateLoop (area : List ℚ) (min_points L : ℕ) : ℕ → List ℕ → List ℕ
  | i, s :: e :: rest =>
      (if e - s + 1 < min_points then []
       else if 2 ≤ passedCriteria (segSlice area s e) ∨ i = 0 ∨ i = L - 2 then [e]
       else []) ++ validateLoop area min_points L (i + 1) (e :: rest)
  | _, _ => []

/-- Lines 463-509 of `find_optimal_transitions_improved`: start from
`[transitions[0]]`, run the validation loop, ensure the final boundary, then
`sorted(list(set(...)))`. -/
def validateTransitions (area : List ℚ) (min_points : ℕ) (ts : List ℕ) : List ℕ :=
  let v := ts.headD 0 :: validateLoop area min_points ts.length 0 ts
  let v2 := if v.getLast? = ts.getLast? then v else v ++ [ts.getLastD 0]
  dedupSortNat v2

theorem mem_dedupSortNat (v : List ℕ) (x : ℕ) : x ∈ dedupSortNat v ↔ x ∈ v := by
  unfold dedupSortNat
  rw [(List.perm_insertionSort _ _).mem_iff, List.mem_dedup]

theorem validateLoop_mem (area : List ℚ) (mp L : ℕ) (ts : List ℕ) :
    ∀ j x : ℕ,
      x ∈ validateLoop area mp L j ts ↔
        ∃ i s e, ts[i]? = some s ∧ ts[i + 1]? = some e ∧ x = e ∧
          ¬ e - s + 1 < mp ∧
          (2 ≤ passedCriteria (segSlice area s e) ∨ j + i = 0 ∨ j + i = L - 2) := by
  induction ts with
  | nil =>
      intro j x
      simp [validateLoop]
  | cons s tl ih =>
      cases tl with
      | nil =>
          intro j x
          simp [validateLoop]
      | cons e rest =>
          intro j x
          have hstep : validateLoop area mp L j (s :: e :: rest) =
              (if e - s + 1 < mp then []
               else if 2 ≤ passedCriteria (segSlice area s e) ∨ j = 0 ∨ j = L - 2
                 then [e] else []) ++ validateLoop area mp L (j + 1) (e :: rest) := rfl
          rw [hstep, List.mem_append, ih (j + 1) x]
          constructor
          · rintro (hblk | ⟨i, s', e', h1, h2, h3, h4, h5⟩)
            · by_cases hA : e - s + 1 < mp
              · rw [if_pos hA] at hblk
                simp at hblk
              · rw [if_neg hA] at hblk
                by_cases hB : 2 ≤ passedCriteria (segSlice area s e) ∨ j = 0 ∨ j = L - 2
                · rw [if_pos hB] at hblk
                  refine ⟨0, s, e, by simp, by simp, by simpa using hblk, hA, ?_⟩
                  simpa using hB
                · rw [if_neg hB] at hblk
                  simp at hblk
            · refine ⟨i + 1, s', e', by simpa using h1, by simpa using h2, h3, h4, ?_⟩
              have : j + 1 + i = j + (i + 1) := by omega
              rwa [this] at h5
          · rintro ⟨i, s', e', h1, h2, h3, h4, h5⟩
            cases i with
            | zero =>
                left
                have hs : s' = s := by simpa using h1.symm
                have he : e' = e := by simpa using h2.symm
                subst hs; subst he
                rw [if_neg h4, if_pos (by simpa using h5)]
                simpa using h3
            | succ i' =>
                right
                refine ⟨i', s', e', by simpa using h1, by simpa using h2, h3, h4, ?_⟩
                have : j + (i' + 1) = j + 1 + i' := by omega
                rwa [this] at h5

/-- C6: with strictly increasing candidate boundaries whose non-final
consecutive spans all reach `min_points` — exactly what the spacing
enforcement guarantees, since interior candidates are accepted only at
distance ≥ `min_points` and `< n-1`, while the final index is appended
unconditionally and may land close — the validation step keeps the ending
boundary of the `i`-th candidate segment iff at least 2 of the 3 criteria
hold or that segment is the first or last one, and the first and last
boundary indices are always present.  (The last segment's boundary needs no
spacing: whether its pair is skipped or kept, the endpoint assurance of
lines 505-507 re-adds it.) -/
theorem validation_keeps_boundary_iff (area : List ℚ) (mp : ℕ) (ts : List ℕ)
    (hchain : ts.Chain' (· < ·)) (hlen : 2 ≤ ts.length)
    (hgap : ∀ i s e, i + 2 < ts.length → ts[i]? = some s →
      ts[i + 1]? = some e → mp ≤ e - s + 1) :
    (∀ i s e, ts[i]? = some s → ts[i + 1]? = some e →
      (e ∈ validateTransitions area mp ts ↔
        (2 ≤ passedCriteria (segSlice area s e) ∨ i = 0 ∨ i = ts.length - 2))) ∧
    (∀ x, ts.head? = some x → x ∈ validateTransitions area mp ts) ∧
    (∀ x, ts.getLast? = some x → x ∈ validateTransitions area mp ts) := by
  obtain ⟨t0, tl, rfl⟩ : ∃ a l, ts = a :: l := by
    cases ts with
    | nil => simp at hlen
    | cons a l => exact ⟨a, l, rfl⟩
  have hpw := List.chain'_iff_pairwise.mp hchain
  have hgetpw := List.pairwise_iff_getElem.mp hpw
  have hinj : ∀ a b, (ha : a < (t0 :: tl).length) → (hb : b < (t0 :: tl).length) →
      (t0 :: tl)[a] = (t0 :: tl)[b] → a = b := by
    intro a b ha hb hab
    rcases Nat.lt_trichotomy a b with h | h | h
    · exact absurd hab (Nat.ne_of_lt (hgetpw a b ha hb h))
    · exact h
    · exact absurd hab.symm (Nat.ne_of_lt (hgetpw b a hb ha h))
  have hlastlt : (t0 :: tl).length - 1 < (t0 :: tl).length := by simp
  have hlastsome : (t0 :: tl).getLast? =
      some ((t0 :: tl)[(t0 :: tl).length - 1]) := by
    rw [List.getLast?_eq_getElem?, List.getElem?_eq_getElem hlastlt]
  have hlastD : (t0 :: tl).getLastD 0 = (t0 :: tl)[(t0 :: tl).length - 1] := by
    rw [List.getLastD_eq_getLast?, hlastsome]
    rfl
  simp only [validateTransitions]
  set v := (t0 :: tl).headD 0 ::
    validateLoop area mp (t0 :: tl).length 0 (t0 :: tl) with hv
  have hmem : ∀ y,
      (y ∈ dedupSortNat (if v.getLast? = (t0 :: tl).getLast? then v
        else v ++ [(t0 :: tl).getLastD 0])) ↔
      (y ∈ v ∨ y = (t0 :: tl).getLastD 0) := by
    intro y
    rw [mem_dedupSortNat]
    by_cases hc : v.getLast? = (t0 :: tl).getLast?
    · rw [if_pos hc]
      constructor
      · exact Or.inl
      · rintro (h | rfl)
        · exact h
        · refine List.mem_of_mem_getLast? (Option.mem_def.mpr ?_)
          rw [hc, hlastsome, hlastD]
    · rw [if_neg hc]
      simp [List.mem_append]
  refine ⟨?_, ?_, ?_⟩
  · intro i s e hi hie
    obtain ⟨hi0, hival⟩ := List.getElem?_eq_some.mp hi
    obtain ⟨hi1, hieval⟩ := List.getElem?_eq_some.mp hie
    have hne0 : e ≠ t0 := by
      have h0 : (t0 :: tl)[0] < (t0 :: tl)[i + 1] :=
        hgetpw 0 (i + 1) (by simp) hi1 (by omega)
      rw [hieval] at h0
      exact fun h => absurd (h ▸ h0) (lt_irrefl _)
    have hC : e = (t0 :: tl).getLastD 0 ↔ i = (t0 :: tl).length - 2 := by
      rw [hlastD]
      constructor
      · intro h
        have := hinj (i + 1) ((t0 :: tl).length - 1) hi1 hlastlt (by rw [hieval, h])
        omega
      · intro h
        have : i + 1 = (t0 :: tl).length - 1 := by
          simp at hlen
          omega
        rw [← hieval]
        congr 1
    rw [hmem e]
    constructor
    · rintro (hev | hlast)
      · rcases List.mem_cons.mp hev with h0 | hloop
        · exact absurd h0 hne0
        · obtain ⟨i', s', e', h1', h2', h3', _, h5'⟩ :=
            (validateLoop_mem area mp (t0 :: tl).length (t0 :: tl) 0 e).mp hloop
          obtain ⟨hb1, hv1⟩ := List.getElem?_eq_some.mp h2'
          have hii : i' = i := by
            have := hinj (i' + 1) (i + 1) hb1 hi1 (by rw [hv1, hieval, ← h3'])
            omega
          subst hii
          have hss : s' = s := by
            rw [hi] at h1'
            exact (Option.some_inj.mp h1').symm
          subst hss
          rw [← h3'] at h5'
          simpa using h5'
      · exact Or.inr (Or.inr (hC.mp hlast))
    · intro hD
      by_cases hiL : i = (t0 :: tl).length - 2
      · exact Or.inr (hC.mpr hiL)
      · have hnskip : ¬ e - s + 1 < mp := by
          have := hgap i s e (by omega) hi hie
          omega
        left
        refine List.mem_cons.mpr (Or.inr ?_)
        refine (validateLoop_mem area mp (t0 :: tl).length (t0 :: tl) 0 e).mpr
          ⟨i, s, e, hi, hie, rfl, hnskip, ?_⟩
        simpa using hD
  · intro x hx
    have hx0 : t0 = x := by simpa using hx
    subst hx0
    rw [hmem t0]
    exact Or.inl (List.mem_cons_self _ _)
  · intro x hx
    rw [hmem x]
    right
    rw [hlastD]
    rw [hlastsome] at hx
    exact (Option.some_inj.mp hx).symm

/-- Every non-final consecutive pair of the boundary list `[0, 12, 25, 27]`
spans at least 12 points (helper fact for the C6 instantiation; the final
pair `(25, 27)` is exempt). -/
theorem c6_example_spacing : ∀ i s e : ℕ,
    i + 2 < ([0, 12, 25, 27] : List ℕ).length →
    ([0, 12, 25, 27] : List ℕ)[i]? = some s →
    ([0, 12, 25, 27] : List ℕ)[i + 1]? = some e → 12 ≤ e - s + 1 := by
  intro i s e h1 h2 h3
  have hi : i = 0 ∨ i = 1 := by
    simp at h1
    omega
  rcases hi with rfl | rfl
  · simp at h2 h3
    omega
  · simp at h2 h3
    omega

/-- Concrete instantiation of C6 at boundaries `[0, 12, 25, 27]` over a
28-point area signal: a reachable boundary list whose final pair spans only
3 points (the detector appends the last index unconditionally). -/
theorem validation_keeps_boundary_iff_witness :
    (([0, 12, 25, 27] : List ℕ).Chain' (· < ·) ∧
      2 ≤ ([0, 12, 25, 27] : List ℕ).length ∧
      (∀ i s e : ℕ, i + 2 < ([0, 12, 25, 27] : List ℕ).length →
        ([0, 12, 25, 27] : List ℕ)[i]? = some s →
        ([0, 12, 25, 27] : List ℕ)[i + 1]? = some e → 12 ≤ e - s + 1)) ∧
    (∀ x, ([0, 12, 25, 27] : List ℕ).head? = some x →
      x ∈ validateTransitions (List.replicate 28 (1 : ℚ)) 12 [0, 12, 25, 27]) :=
  ⟨⟨List.chain'_cons.mpr ⟨by decide, List.chain'_cons.mpr ⟨by decide,
        List.chain'_pair.mpr (by decide)⟩⟩, by decide, c6_example_spacing⟩,
    (validation_keeps_boundary_iff (List.replicate 28 (1 : ℚ)) 12
      [0, 12, 25, 27]
      (List.chain'_cons.mpr ⟨by decide, List.chain'_cons.mpr ⟨by decide,
        List.chain'_pair.mpr (by decide)⟩⟩) (by decide)
      c6_example_spacing).2.1⟩

/-! ## Full improved detector, legacy and stability guards

Embeds `find_optimal_transitions_improved` end to end
(src/container_geometry_analyzer_gui_v3_11_8.py lines 344-514), the early
return of the legacy `find_optimal_transitions` (lines 294-342, identically
src/container_analyzer_v3.11.0_enhanced.py lines 281-334), and the early
return of `find_stability_transitions`
(src/src/stability_detection.py lines 257-346). -/

/-- The scipy numeric kernels abstracted from the improved detector:
`savgol_filter(x, window, polyorder=2)`, `np.gradient(y, x)`,
`np.percentile`, `find_peaks(score, height, distance)`, and the noise
standard deviation `np.std(area - area_very_smooth)`. -/
structure DetectorKernels where
  savgol : List ℚ → ℕ → List ℚ
  gradient : List ℚ → List ℚ → List ℚ
  percentileOf : List ℚ → ℕ → ℚ
  findPeaks : List ℚ → ℚ → ℕ → List ℕ
  noiseStd : List ℚ → List ℚ → ℚ

/-- The minimum-spacing enforcement (lines 453-460): scan the sorted
candidates, accepting each candidate at least `min_points` beyond the last
accepted boundary and strictly before the final index, then terminate the
list at `n - 1`. -/
def enforceSpacing (n min_points : ℕ) (cands : List ℕ) : List ℕ :=
  let ts := (cands.insertionSort (· ≤ ·)).foldl
    (fun acc c =>
      if acc.getLastD 0 + min_points ≤ c ∧ c < n - 1 then acc ++ [c] else acc)
    [0]
  if ts.getLast? ≠ some (n - 1) then ts ++ [n - 1] else ts

/-- `find_optimal_transitions_improved` (lines 344-514): the `n < 2·L` early
return, the smoothing-window arithmetic, the combined score, the adaptive
SNR → percentile threshold, the spacing enforcement and the advanced
validation are concrete; the scipy numerics are the `DetectorKernels`. -/
def find_optimal_transitions_improved (k : DetectorKernels)
    (area heights : List ℚ) (min_points : ℕ) (use_adaptive : Bool) : List ℕ :=
  let n := area.length
  if n < 2 * min_points then [0, n - 1]
  else
    let w0 := max 5 (min 15 (n / 10))
    let window := if w0 % 2 = 0 then w0 + 1 else w0
    let area_smooth := k.savgol area window
    let first_deriv := k.gradient area_smooth heights
    let second_deriv := k.gradient first_deriv heights
    let score := combinedScore first_deriv second_deriv
    let percentile :=
      if use_adaptive then
        let wideWindow :=
          if (n / 5) % 2 = 1 then min 21 (n / 5) else min 21 (n / 5 + 1)
        let area_very_smooth := k.savgol area wideWindow
        let noise_std := k.noiseStd area area_very_smooth
        let signal_range := listMax area - listMin area
        percentileForSnr (signal_range / (noise_std + 1/10^8))
      else 80
    let threshold := k.percentileOf score percentile
    let candidates := (k.findPeaks score threshold min_points).map (· + 1)
    validateTransitions area min_points (enforceSpacing n min_points candidates)

/-- `find_optimal_transitions` (legacy detector): only its insufficient-data
early return is concrete here; the smoothing/percentile body is the
abstracted `rest`. -/
def find_optimal_transitions (rest : List ℚ → ℕ → List ℕ)
    (area : List ℚ) (min_points : ℕ) : List ℕ :=
  if area.length < 2 * min_points then [0, area.length - 1]
  else rest area min_points

/-- `find_stability_transitions` (src/src/stability_detection.py lines
257-346): only its insufficient-data early return is concrete here; the
stability-metric body is the abstracted `rest`. -/
def find_stability_transitions (rest : List ℚ → List ℚ → ℕ → List ℕ)
    (area heights : List ℚ) (min_points : ℕ) : List ℕ :=
  if area.length < 2 * min_points then [0, area.length - 1]
  else rest area heights min_points

/-- C9: on fewer than `2·min_points` points every detector — improved,
legacy, stability-based — returns exactly the two endpoint indices
`[0, n-1]`. -/
theorem insufficient_data_trivial_result (k : DetectorKernels)
    (restLegacy : List ℚ → ℕ → List ℕ)
    (restStab : List ℚ → List ℚ → ℕ → List ℕ)
    (area heights : List ℚ) (min_points : ℕ) (use_adaptive : Bool)
    (h : area.length < 2 * min_points) :
    find_optimal_transitions_improved k area heights min_points use_adaptive =
      [0, area.length - 1] ∧
    find_optimal_transitions restLegacy area min_points = [0, area.length - 1] ∧
    find_stability_transitions restStab area heights min_points =
      [0, area.length - 1] := by
  refine ⟨?_, ?_, ?_⟩
  · simp only [find_optimal_transitions_improved]
    rw [if_pos h]
  · simp only [find_optimal_transitions]
    rw [if_pos h]
  · simp only [find_stability_transitions]
    rw [if_pos h]

/-- Degenerate kernel instantiation, used to exercise code paths that never
reach the abstracted numerics. -/
def trivialKernels : DetectorKernels :=
  ⟨fun a _ => a, fun a _ => a, fun _ _ => 0, fun _ _ _ => [], fun _ _ => 0⟩

/-- Concrete instantiation of C9: a 5-point signal with `min_points = 12`
yields `[0, 4]` from all three detectors. -/
theorem insufficient_data_trivial_result_witness :
    (([1, 2, 3, 4, 5] : List ℚ).length < 2 * 12) ∧
    (find_optimal_transitions_improved trivialKernels [1, 2, 3, 4, 5]
        [1, 2, 3, 4, 5] 12 true = [0, 4] ∧
      find_optimal_transitions (fun _ _ => []) [1, 2, 3, 4, 5] 12 = [0, 4] ∧
      find_stability_transitions (fun _ _ _ => []) [1, 2, 3, 4, 5]
        [1, 2, 3, 4, 5] 12 = [0, 4]) :=
  ⟨by decide,
    insufficient_data_trivial_result trivialKernels (fun _ _ => [])
      (fun _ _ _ => []) [1, 2, 3, 4, 5] [1, 2, 3, 4, 5] 12 true (by decide)⟩

/-! ## Segmentation-and-fitting pipeline

Embeds `segment_and_fit_optimized` of
src/container_geometry_analyzer_gui_v3_11_8.py (lines 516-622): improved
transition detection followed by per-segment cylinder/frustum fitting, with
the two bounded `curve_fit` calls abstracted as `FitSolvers`. -/

/-- The abstract per-segment solvers: `np.sqrt` (for the radius guesses) and
the two bounded `curve_fit` calls, which receive the data slices and the
radius guesses (from which the source derives `p0` and the bounds) and
return fitted parameters with raw mean-absolute error and percent error, or
`none` on non-convergence. -/
structure FitSolvers where
  sqrt : ℚ → ℚ
  fitCylinder : List ℚ → List ℚ → ℚ → Option (ℚ × ℚ × ℚ)
  fitFrustum : List ℚ → List ℚ → ℚ → ℚ → Option ((ℚ × ℚ × ℚ) × ℚ × ℚ)

/-- A fitted segment: `(start, end, shape, params)` of the source tuples. -/
structure Segment where
  start : ℕ
  stop : ℕ
  kind : ShapeKind
  params : List ℚ
deriving DecidableEq, Repr

/-- `np.median`: middle element of the sorted data, or the mean of the two
middle elements. -/
def medianQ (l : List ℚ) : ℚ :=
  let srt := l.insertionSort (· ≤ ·)
  let n := l.length
  if n = 0 then 0
  else if n % 2 = 1 then srt.getD (n / 2) 0
  else (srt.getD (n / 2 - 1) 0 + srt.getD (n / 2) 0) / 2

/-- The fit selection of lines 600-608: cylinder if it converged and either
the frustum failed or the cylinder's raw error is smaller; else the frustum;
else the naive-cylinder fallback with zero recorded error. -/
def selectCylFrust (s e : ℕ) (guess_r : ℚ) (cyl : Option (ℚ × ℚ × ℚ))
    (frust : Option ((ℚ × ℚ × ℚ) × ℚ × ℚ)) : Segment × ℚ :=
  match cyl, frust with
  | some (r, _, cepct), none => (⟨s, e, ShapeKind.cylinder, [r]⟩, cepct)
  | some (r, ce, cepct), some (p, fe, fepct) =>
      if ce < fe then (⟨s, e, ShapeKind.cylinder, [r]⟩, cepct)
      else (⟨s, e, ShapeKind.frustum, [p.1, p.2.1, p.2.2]⟩, fepct)
  | none, some (p, _, fepct) =>
      (⟨s, e, ShapeKind.frustum, [p.1, p.2.1, p.2.2]⟩, fepct)
  | none, none => (⟨s, e, ShapeKind.cylinder, [guess_r]⟩, 0)

/-- One iteration of the fitting loop (lines 548-608): data slices, radius
guesses from the segment's median area and its boundary areas, the two
abstract fits, then the selection. -/
def fitSegment (sv : FitSolvers) (piq : ℚ) (heights volumes area : List ℚ)
    (s e : ℕ) : Segment × ℚ :=
  let x := segSlice heights s e
  let y := segSlice volumes s e
  let mean_area := medianQ (segSlice area s e)
  let guess_r := sv.sqrt (mean_area / piq)
  let area_first := if 0 < s then area.getD s 0 else mean_area
  let area_last := if e < area.length - 1 then area.getD e 0 else mean_area
  selectCylFrust s e guess_r (sv.fitCylinder x y guess_r)
    (sv.fitFrustum x y (sv.sqrt (area_first / piq)) (sv.sqrt (area_last / piq)))

/-- The fitting loop over consecutive transition pairs (lines 548-608),
skipping pairs spanning fewer than `min_points` points. -/
def fitLoop (sv : FitSolvers) (piq : ℚ) (heights volumes area : List ℚ)
    (min_points : ℕ) : List ℕ → List (Segment × ℚ)
  | s :: e :: rest =>
      (if e - s + 1 < min_points then []
       else [fitSegment sv piq heights volumes area s e]) ++
        fitLoop sv piq heights volumes area min_points (e :: rest)
  | _ => []

/-- The output of `segment_and_fit_optimized`: the returned segment list,
the recorded per-segment fit errors, and the job step duration recorded via
`time.time()`. -/
structure SegmentAndFitResult where
  segments : List Segment
  fitErrors : List ℚ
  duration : ℚ

/-- `segment_and_fit_optimized` (lines 516-622), improved-detection path
(`DEFAULT_PARAMS['transition_detection_method'] = 'improved'`), with the
wall clock passed explicitly: `clock 0` is `step_start` and `clock 1` the
completion time recorded into the job statistics. -/
def segment_and_fit_optimized (k : DetectorKernels) (sv : FitSolvers)
    (piq : ℚ) (heights volumes area : List ℚ) (min_points : ℕ)
    (clock : ℕ → ℚ) : SegmentAndFitResult :=
  let transitions := find_optimal_transitions_improved k area heights min_points true
  let fitted := fitLoop sv piq heights volumes area min_points transitions
  { segments := fitted.map Prod.fst
    fitErrors := fitted.map Prod.snd
    duration := clock 1 - clock 0 }

/-- Degenerate solver instantiation (every fit non-convergent), used to
exercise code paths that never reach the abstracted numerics. -/
def trivialSolvers : FitSolvers :=
  ⟨fun x => x, fun _ _ _ => none, fun _ _ _ _ => none⟩

/-- The §3 data-model invariant on a segment list over `0..lastIdx`:
a first segment starting at 0, a last segment ending at `lastIdx`,
`startIndex < endIndex` throughout, and contiguity of consecutive spans. -/
def segmentsInvariant (segs : List Segment) (lastIdx : ℕ) : Prop :=
  segs.head?.map Segment.start = some 0 ∧
  segs.getLast?.map Segment.stop = some lastIdx ∧
  (∀ sg ∈ segs, sg.start < sg.stop) ∧
  segs.Chain' (fun a b => a.stop = b.start)

theorem selectCylFrust_spans (s e : ℕ) (gr : ℚ) (cyl : Option (ℚ × ℚ × ℚ))
    (frust : Option ((ℚ × ℚ × ℚ) × ℚ × ℚ)) :
    (selectCylFrust s e gr cyl frust).1.start = s ∧
    (selectCylFrust s e gr cyl frust).1.stop = e := by
  rcases cyl with _ | ⟨r, ce, cp⟩ <;> rcases frust with _ | ⟨p, fe, fp⟩ <;>
    simp only [selectCylFrust] <;> try simp
  split <;> simp

theorem fitSegment_spans (sv : FitSolvers) (piq : ℚ)
    (heights volumes area : List ℚ) (s e : ℕ) :
    (fitSegment sv piq heights volumes area s e).1.start = s ∧
    (fitSegment sv piq heights volumes area s e).1.stop = e :=
  selectCylFrust_spans s e _ _ _

theorem fitLoop_invariant (sv : FitSolvers) (piq : ℚ)
    (heights volumes area : List ℚ) (mp : ℕ) :
    ∀ (rest : List ℕ) (s e : ℕ),
      List.Chain' (· < ·) (s :: e :: rest) →
      List.Chain' (fun x y => mp ≤ y - x + 1) (s :: e :: rest) →
      ((fitLoop sv piq heights volumes area mp (s :: e :: rest)).map
          Prod.fst).head?.map Segment.start = some s ∧
      ((fitLoop sv piq heights volumes area mp (s :: e :: rest)).map
          Prod.fst).getLast?.map Segment.stop = (s :: e :: rest).getLast? ∧
      (∀ sg ∈ (fitLoop sv piq heights volumes area mp (s :: e :: rest)).map
          Prod.fst, sg.start < sg.stop) ∧
      ((fitLoop sv piq heights volumes area mp (s :: e :: rest)).map
          Prod.fst).Chain' (fun a b => a.stop = b.start) := by
  intro rest
  induction rest with
  | nil =>
      intro s e hchain hgap
      have hlt : s < e := by
        have := List.chain'_pair.mp (by simpa using hchain)
        simpa using this
      have hg : mp ≤ e - s + 1 := by
        have := List.chain'_pair.mp (by simpa using hgap)
        simpa using this
      have hskip : ¬ e - s + 1 < mp := by omega
      have hfit : fitLoop sv piq heights volumes area mp [s, e] =
          [fitSegment sv piq heights volumes area s e] := by
        show (if e - s + 1 < mp then []
          else [fitSegment sv piq heights volumes area s e]) ++ [] = _
        rw [if_neg hskip, List.append_nil]
      rw [hfit]
      obtain ⟨h1, h2⟩ := fitSegment_spans sv piq heights volumes area s e
      refine ⟨by simp [h1], by simp [h2], ?_, by simp⟩
      intro sg hsg
      simp at hsg
      rw [hsg, h1, h2]
      exact hlt
  | cons r rest ih =>
      intro s e hchain hgap
      have hchain' : List.Chain' (· < ·) (e :: r :: rest) := hchain.tail
      have hgap' : List.Chain' (fun x y => mp ≤ y - x + 1) (e :: r :: rest) :=
        hgap.tail
      have hlt : s < e := by
        rcases List.chain'_cons.mp hchain with ⟨h, _⟩
        exact h
      have hg : mp ≤ e - s + 1 := by
        rcases List.chain'_cons.mp hgap with ⟨h, _⟩
        exact h
      have hskip : ¬ e - s + 1 < mp := by omega
      have hfit : fitLoop sv piq heights volumes area mp (s :: e :: r :: rest) =
          fitSegment sv piq heights volumes area s e ::
            fitLoop sv piq heights volumes area mp (e :: r :: rest) := by
        show (if e - s + 1 < mp then []
          else [fitSegment sv piq heights volumes area s e]) ++ _ = _
        rw [if_neg hskip]
        rfl
      obtain ⟨ih1, ih2, ih3, ih4⟩ := ih e r hchain' hgap'
      obtain ⟨h1, h2⟩ := fitSegment_spans sv piq heights volumes area s e
      rw [hfit]
      set L := (fitLoop sv piq heights volumes area mp (e :: r :: rest)).map
        Prod.fst with hL
      have hLne : L ≠ [] := by
        intro hnil
        rw [hnil] at ih1
        simp at ih1
      refine ⟨by simp [h1], ?_, ?_, ?_⟩
      · rw [List.map_cons, ← hL]
        obtain ⟨c, L', hL'⟩ := List.exists_cons_of_ne_nil hLne
        rw [hL', List.getLast?_cons_cons, ← hL', ih2, List.getLast?_cons_cons,
          List.getLast?_cons_cons, List.getLast?_cons_cons]
      · intro sg hsg
        rw [List.map_cons] at hsg
        rcases List.mem_cons.mp hsg with h0 | hmem
        · rw [h0, h1, h2]
          exact hlt
        · exact ih3 sg hmem
      · rw [List.map_cons]
        refine List.chain'_cons'.mpr ⟨?_, ih4⟩
        intro b hb
        have hbstart : some b.start = some e := by
          have hhd : L.head?.map Segment.start = some e := ih1
          cases hhd2 : L.head? with
          | none => rw [hhd2] at hhd; simp at hhd
          | some c =>
              rw [hhd2] at hhd
              have hcb : c = b := by
                have := hb
                rw [hhd2] at this
                simpa using this
              rw [← hcb]
              simpa using hhd
        rw [h2]
        exact (Option.some_inj.mp hbstart).symm

/-- C2 (amended): whenever the detected boundary list is strictly
increasing, starts at 0, ends at the final index, and every consecutive
boundary pair spans at least `min_points` points (so no pair is skipped by
the fitting loop), the segment list produced by the segmentation-and-fitting
stage satisfies the data-model invariant. -/
theorem segment_list_invariant_of_spacing (k : DetectorKernels)
    (sv : FitSolvers) (piq : ℚ) (heights volumes area : List ℚ)
    (min_points : ℕ) (clock : ℕ → ℚ) (ts : List ℕ)
    (hts : find_optimal_transitions_improved k area heights min_points true = ts)
    (hlen : 2 ≤ ts.length)
    (hchain : ts.Chain' (· < ·))
    (hgap : ts.Chain' (fun x y => min_points ≤ y - x + 1))
    (hhead : ts.head? = some 0)
    (hlast : ts.getLast? = some (area.length - 1)) :
    segmentsInvariant
      (segment_and_fit_optimized k sv piq heights volumes area min_points
        clock).segments (area.length - 1) := by
  obtain ⟨t0, t1, tl, rfl⟩ : ∃ a b l, ts = a :: b :: l := by
    cases ts with
    | nil => simp at hlen
    | cons a l =>
        cases l with
        | nil => simp at hlen
        | cons b l => exact ⟨a, b, l, rfl⟩
  have ht0 : t0 = 0 := by simpa using hhead
  subst ht0
  have hseg : (segment_and_fit_optimized k sv piq heights volumes area
      min_points clock).segments =
      (fitLoop sv piq heights volumes area min_points (0 :: t1 :: tl)).map
        Prod.fst := by
    simp only [segment_and_fit_optimized, hts]
  obtain ⟨h1, h2, h3, h4⟩ :=
    fitLoop_invariant sv piq heights volumes area min_points tl 0 t1 hchain hgap
  rw [hseg]
  exact ⟨h1, by rw [h2, hlast], h3, h4⟩

/-- C2 counterexample: a well-formed 5-point table (strictly increasing
heights, monotone volumes) yields an empty segment list — the detector
returns the trivial boundaries `[0, 4]` but the fitting loop skips the pair
as shorter than `min_points = 12` — so no segment starts at index 0 or ends
at the final index. -/
theorem segment_list_invariant_fails_small_input :
    ¬ segmentsInvariant
      (segment_and_fit_optimized trivialKernels trivialSolvers 3
        [1, 2, 3, 4, 5] [10, 20, 30, 40, 50] [10, 10, 10, 10, 10] 12
        (fun _ => 0)).segments 4 := by
  intro h
  have h0 := h.1
  rw [show (segment_and_fit_optimized trivialKernels trivialSolvers 3
      [1, 2, 3, 4, 5] [10, 20, 30, 40, 50] [10, 10, 10, 10, 10] 12
      (fun _ => 0)).segments = [] from rfl] at h0
  simp at h0

/-- Concrete instantiation of the amended C2: a 13-point table; the detector
returns `[0, 12]`, the single pair spans 13 ≥ 12 points, and the resulting
one-segment list satisfies the invariant. -/
theorem segment_list_invariant_of_spacing_witness :
    (find_optimal_transitions_improved trivialKernels
        [5, 5, 5, 5, 5, 5, 5, 5, 5, 5, 5, 5, 5]
        [1, 2, 3, 4, 5, 6, 7, 8, 9, 10, 11, 12, 13] 12 true = [0, 12] ∧
      ([0, 12] : List ℕ).Chain' (· < ·) ∧
      ([0, 12] : List ℕ).Chain' (fun x y => 12 ≤ y - x + 1)) ∧
    segmentsInvariant
      (segment_and_fit_optimized trivialKernels trivialSolvers 3
        [1, 2, 3, 4, 5, 6, 7, 8, 9, 10, 11, 12, 13]
        [10, 20, 30, 40, 50, 60, 70, 80, 90, 100, 110, 120, 130]
        [5, 5, 5, 5, 5, 5, 5, 5, 5, 5, 5, 5, 5] 12 (fun _ => 0)).segments
      (([5, 5, 5, 5, 5, 5, 5, 5, 5, 5, 5, 5, 5] : List ℚ).length - 1) :=
  ⟨⟨rfl, List.chain'_pair.mpr (by decide), List.chain'_pair.mpr (by decide)⟩,
    segment_list_invariant_of_spacing trivialKernels trivialSolvers 3
      [1, 2, 3, 4, 5, 6, 7, 8, 9, 10, 11, 12, 13]
      [10, 20, 30, 40, 50, 60, 70, 80, 90, 100, 110, 120, 130]
      [5, 5, 5, 5, 5, 5, 5, 5, 5, 5, 5, 5, 5] 12 (fun _ => 0) [0, 12]
      rfl (by decide) (List.chain'_pair.mpr (by decide))
      (List.chain'_pair.mpr (by decide)) rfl rfl⟩

/-- C10: two runs of the segmentation-and-fitting stage on identical input
tables produce identical segment lists and identical recorded fit errors:
with the ambient wall clock passed explicitly, the numeric output is
independent of it (and the embedding reads no other external state). -/
theorem segmentation_and_fitting_deterministic (k : DetectorKernels)
    (sv : FitSolvers) (piq : ℚ) (heights volumes area : List ℚ)
    (min_points : ℕ) (c₁ c₂ : ℕ → ℚ) :
    (segment_and_fit_optimized k sv piq heights volumes area min_points
        c₁).segments =
      (segment_and_fit_optimized k sv piq heights volumes area min_points
        c₂).segments ∧
    (segment_and_fit_optimized k sv piq heights volumes area min_points
        c₁).fitErrors =
      (segment_and_fit_optimized k sv piq heights volumes area min_points
        c₂).fitErrors :=
  ⟨rfl, rfl⟩

/-! ## Ensemble segment-count prediction and hybrid routing

Embeds src/src/stability_detection.py: the three heuristics of
`predict_segment_count` (lines 110-250), with their numpy-derived feature
counts (sign changes, curvature jumps, variance peaks) abstracted, and the
routing of `find_optimal_transitions_hybrid` (lines 484-541). -/

/-- Method 1 (lines 110-136): `min(1 + sign_changes // 2, 3)` after the
`len(area) < 10` early return; `signChanges` abstracts
`np.sum(np.diff(np.sign(d2A_dh2)) != 0)`. -/
def predict_segment_count_zero_crossing (signChanges : List ℚ → List ℚ → ℕ)
    (area heights : List ℚ) : ℕ :=
  if area.length < 10 then 1
  else min (1 + signChanges area heights / 2) 3

/-- Method 2 (lines 139-170): `min(1 + len(transition_indices) // 3, 3)`
after the `len(area) < 10` early return; `curvatureJumps` abstracts the count
of large jumps of the smoothed curvature derivative. -/
def predict_segment_count_curvature_regime
    (curvatureJumps : List ℚ → List ℚ → ℕ) (area heights : List ℚ) : ℕ :=
  if area.length < 10 then 1
  else min (1 + curvatureJumps area heights / 3) 3

/-- Method 3 (lines 173-209): `min(1 + num_peaks // 2, 3)` after the
`len(area) < 15` and the empty-local-variance early returns;
`variancePeaks` abstracts the count of windowed variance peaks above 1.2×
their median (`none` models the empty `local_vars` return). -/
def predict_segment_count_variance
    (variancePeaks : List ℚ → List ℚ → Option ℕ) (area heights : List ℚ) : ℕ :=
  if area.length < 15 then 1
  else
    match variancePeaks area heights with
    | none => 1
    | some num_peaks => min (1 + num_peaks / 2) 3

/-- `int(np.median([a, b, c]))`: the middle of three values. -/
def median3 (a b c : ℕ) : ℕ := max (min a b) (min (max a b) c)

/-- `predict_segment_count` (lines 212-250): the median vote of the three
heuristics. -/
def predict_segment_count (signChanges curvatureJumps : List ℚ → List ℚ → ℕ)
    (variancePeaks : List ℚ → List ℚ → Option ℕ)
    (area heights : List ℚ) : ℕ :=
  median3 (predict_segment_count_zero_crossing signChanges area heights)
    (predict_segment_count_curvature_regime curvatureJumps area heights)
    (predict_segment_count_variance variancePeaks area heights)

/-- The routing outcome of `find_optimal_transitions_hybrid` (its returned
method tag). -/
inductive HybridRoute where
  | insufficient_data
  | route_multi_derivative
  | stability
deriving DecidableEq, Repr

/-- `find_optimal_transitions_hybrid` (lines 484-541): the insufficient-data
early return, then routing on the ensemble prediction — the primary
multi-derivative method when at most 2 segments are predicted (the boundary
list is left to the main algorithm, hence `none`), else the stability-based
detector; `stabilityPipeline` abstracts
`validate_all_transitions(find_stability_transitions(...))`. -/
def find_optimal_transitions_hybrid
    (signChanges curvatureJumps : List ℚ → List ℚ → ℕ)
    (variancePeaks : List ℚ → List ℚ → Option ℕ)
    (stabilityPipeline : List ℚ → List ℚ → ℕ → List ℕ)
    (area heights : List ℚ) (min_points : ℕ) : Option (List ℕ) × HybridRoute :=
  if area.length < 2 * min_points then
    (some [0, area.length - 1], HybridRoute.insufficient_data)
  else if predict_segment_count signChanges curvatureJumps variancePeaks
      area heights ≤ 2 then
    (none, HybridRoute.route_multi_derivative)
  else
    (some (stabilityPipeline area heights min_points), HybridRoute.stability)

/-- C8: each of the three heuristics returns a predicted count in `{1,2,3}`
and so does their median, and the hybrid detector (past its
insufficient-data guard) routes to the primary multi-derivative method
exactly when the prediction is at most 2 and to the stability-based detector
exactly when it is 3 or more. -/
theorem ensemble_prediction_and_routing
    (signChanges curvatureJumps : List ℚ → List ℚ → ℕ)
    (variancePeaks : List ℚ → List ℚ → Option ℕ)
    (stabilityPipeline : List ℚ → List ℚ → ℕ → List ℕ)
    (area heights : List ℚ) (min_points : ℕ)
    (h : ¬ area.length < 2 * min_points) :
    (1 ≤ predict_segment_count_zero_crossing signChanges area heights ∧
      predict_segment_count_zero_crossing signChanges area heights ≤ 3) ∧
    (1 ≤ predict_segment_count_curvature_regime curvatureJumps area heights ∧
      predict_segment_count_curvature_regime curvatureJumps area heights ≤ 3) ∧
    (1 ≤ predict_segment_count_variance variancePeaks area heights ∧
      predict_segment_count_variance variancePeaks area heights ≤ 3) ∧
    (1 ≤ predict_segment_count signChanges curvatureJumps variancePeaks
        area heights ∧
      predict_segment_count signChanges curvatureJumps variancePeaks
        area heights ≤ 3) ∧
    ((find_optimal_transitions_hybrid signChanges curvatureJumps variancePeaks
        stabilityPipeline area heights min_points).2 =
        HybridRoute.route_multi_derivative ↔
      predict_segment_count signChanges curvatureJumps variancePeaks
        area heights ≤ 2) ∧
    ((find_optimal_transitions_hybrid signChanges curvatureJumps variancePeaks
        stabilityPipeline area heights min_points).2 = HybridRoute.stability ↔
      3 ≤ predict_segment_count signChanges curvatureJumps variancePeaks
        area heights) := by
  have hb1 : 1 ≤ predict_segment_count_zero_crossing signChanges area heights ∧
      predict_segment_count_zero_crossing signChanges area heights ≤ 3 := by
    unfold predict_segment_count_zero_crossing
    split
    · omega
    · omega
  have hb2 : 1 ≤ predict_segment_count_curvature_regime curvatureJumps
        area heights ∧
      predict_segment_count_curvature_regime curvatureJumps area heights ≤ 3 := by
    unfold predict_segment_count_curvature_regime
    split
    · omega
    · omega
  have hb3 : 1 ≤ predict_segment_count_variance variancePeaks area heights ∧
      predict_segment_count_variance variancePeaks area heights ≤ 3 := by
    unfold predict_segment_count_variance
    split
    · omega
    · split
      · omega
      · omega
  have hbm : 1 ≤ predict_segment_count signChanges curvatureJumps variancePeaks
        area heights ∧
      predict_segment_count signChanges curvatureJumps variancePeaks
        area heights ≤ 3 := by
    unfold predict_segment_count median3
    omega
  refine ⟨hb1, hb2, hb3, hbm, ?_, ?_⟩
  · unfold find_optimal_transitions_hybrid
    rw [if_neg h]
    by_cases hp : predict_segment_count signChanges curvatureJumps
        variancePeaks area heights ≤ 2
    · rw [if_pos hp]
      simpa using hp
    · rw [if_neg hp]
      simp only [HybridRoute]
      constructor
      · intro hcontra
        exact absurd hcontra (by simp)
      · intro hcontra
        exact absurd hcontra hp
  · unfold find_optimal_transitions_hybrid
    rw [if_neg h]
    by_cases hp : predict_segment_count signChanges curvatureJumps
        variancePeaks area heights ≤ 2
    · rw [if_pos hp]
      constructor
      · intro hcontra
        exact absurd hcontra (by simp)
      · intro hcontra
        omega
    · rw [if_neg hp]
      constructor
      · intro _
        omega
      · intro _
        rfl

/-- Concrete instantiation of C8 on a 24-point signal with feature counts
predicting 3 segments via two of the three heuristics. -/
theorem ensemble_prediction_and_routing_witness :
    (¬ (List.replicate 24 (1 : ℚ)).length < 2 * 12) ∧
    (1 ≤ predict_segment_count (fun _ _ => 5) (fun _ _ => 7) (fun _ _ => some 0)
        (List.replicate 24 (1 : ℚ)) (List.replicate 24 (1 : ℚ)) ∧
      predict_segment_count (fun _ _ => 5) (fun _ _ => 7) (fun _ _ => some 0)
        (List.replicate 24 (1 : ℚ)) (List.replicate 24 (1 : ℚ)) ≤ 3) ∧
    ((find_optimal_transitions_hybrid (fun _ _ => 5) (fun _ _ => 7)
        (fun _ _ => some 0) (fun _ _ _ => []) (List.replicate 24 (1 : ℚ))
        (List.replicate 24 (1 : ℚ)) 12).2 = HybridRoute.stability ↔
      3 ≤ predict_segment_count (fun _ _ => 5) (fun _ _ => 7)
        (fun _ _ => some 0) (List.replicate 24 (1 : ℚ))
        (List.replicate 24 (1 : ℚ))) :=
  ⟨by decide,
    (ensemble_prediction_and_routing (fun _ _ => 5) (fun _ _ => 7)
      (fun _ _ => some 0) (fun _ _ _ => []) (List.replicate 24 (1 : ℚ))
      (List.replicate 24 (1 : ℚ)) 12 (by decide)).2.2.2.1,
    (ensemble_prediction_and_routing (fun _ _ => 5) (fun _ _ => 7)
      (fun _ _ => some 0) (fun _ _ _ => []) (List.replicate 24 (1 : ℚ))
      (List.replicate 24 (1 : ℚ)) 12 (by decide)).2.2.2.2.2⟩

/-! ## Profile reconstruction

Embeds `create_enhanced_profile` of
src/container_geometry_analyzer_gui_v3_11_8.py (lines 654-738).  `np.sqrt`
is the abstract `sqrtK`, π the abstract `piq`, and `gaussian_filter1d`
(σ = 0.8) the abstract `gauss`; the floors, the per-shape analytic curves,
the Hermite arcs, and the dedup-sort are concrete. -/

/-- Analytic radius curve and end slope of one segment (lines 675-691):
constant for a 1-parameter cylinder, linear interpolation for a
3-parameter frustum, and the area-derived linear fallback otherwise. -/
def segmentCurve (sqrtK : ℚ → ℚ) (piq : ℚ) (heights areas : List ℚ)
    (sg : Segment) : List ℚ × List ℚ × ℚ :=
  let h_start := heights.getD sg.start 0
  let h_end := heights.getD sg.stop 0
  let h_span := h_end - h_start
  let num_points := max 15 (min 30 (sg.stop - sg.start + 1))
  let h_rel := linspace 0 h_span num_points
  match sg.kind, sg.params with
  | ShapeKind.cylinder, [r] =>
      (h_rel.map fun h => h_start + h, h_rel.map fun _ => r, 0)
  | ShapeKind.frustum, r1 :: r2 :: _ :: _ =>
      (h_rel.map fun h => h_start + h,
        h_rel.map fun h => r1 + (r2 - r1) * (h / h_span),
        (r2 - r1) / h_span)
  | _, _ =>
      let r_first := sqrtK (areas.getD sg.start 0 / piq)
      let r_last := sqrtK (areas.getD (min sg.stop (areas.length - 1)) 0 / piq)
      (h_rel.map fun h => h_start + h,
        h_rel.map fun h => r_first + (r_last - r_first) * (h / h_span),
        (r_last - r_first) / h_span)

/-- Boundary radius and Hermite tangent of the next segment
(lines 701-709). -/
def nextStartData (sqrtK : ℚ → ℚ) (piq : ℚ) (heights areas : List ℚ)
    (sg : Segment) : ℚ × ℚ :=
  match sg.kind, sg.params with
  | ShapeKind.cylinder, [r] => (r, 0)
  | ShapeKind.frustum, r1 :: r2 :: _ :: _ =>
      (r1, (r2 - r1) / (heights.getD sg.stop 0 - heights.getD sg.start 0))
  | _, _ => (sqrtK (areas.getD sg.start 0 / piq), 0)

/-- The segment loop of lines 666-721: each segment (with positive height
span) contributes its analytic curve, and each consecutive pair contributes
the interior of a 25-point Hermite transition arc. -/
def profileLoop (sqrtK : ℚ → ℚ) (piq tension : ℚ) (heights areas : List ℚ) :
    List Segment → List (ℚ × ℚ)
  | [] => []
  | [sg] =>
      if heights.getD sg.stop 0 - heights.getD sg.start 0 ≤ 0 then []
      else
        let c := segmentCurve sqrtK piq heights areas sg
        c.1.zip c.2.1
  | sg :: sg2 :: rest =>
      (if heights.getD sg.stop 0 - heights.getD sg.start 0 ≤ 0 then []
       else
        let c := segmentCurve sqrtK piq heights areas sg
        let nd := nextStartData sqrtK piq heights areas sg2
        let tr := hermite_spline_transition (c.1.getLastD 0) (c.2.1.getLastD 0)
          c.2.2 (heights.getD sg2.start 0) nd.1 nd.2 25 tension
        c.1.zip c.2.1 ++ ((tr.1.drop 1).dropLast.zip ((tr.2.drop 1).dropLast))) ++
      profileLoop sqrtK piq tension heights areas (sg2 :: rest)

/-- `profile_df.drop_duplicates('z')`: keep the first row for each height. -/
def dedupByKey : List (ℚ × ℚ) → List (ℚ × ℚ)
  | [] => []
  | p :: ps => p :: dedupByKey (ps.filter fun q => decide (q.1 ≠ p.1))
termination_by l => l.length
decreasing_by
  simp_wf
  exact Nat.lt_succ_of_le (List.length_filter_le _ _)

/-- `create_enhanced_profile` (lines 654-738): the single-segment path
returns the direct analytic curve `sqrt(max(area/π, 0.01))` over the input
heights; the multi-segment path concatenates the segment curves and
transition arcs, deduplicates by height, sorts, filters the radii and floors
them at 0.1 (falling back to the direct curve when fewer than 2 points were
produced). -/
def create_enhanced_profile (sqrtK : ℚ → ℚ) (piq tension : ℚ)
    (gauss : List ℚ → List ℚ) (segments : List Segment)
    (heights areas : List ℚ) : List ℚ × List ℚ :=
  if segments.length ≤ 1 then
    (heights, areas.map fun a => sqrtK (max (a / piq) (1/100)))
  else
    let pts := profileLoop sqrtK piq tension heights areas segments
    if 1 < pts.length then
      let srt := (dedupByKey pts).insertionSort fun a b => a.1 ≤ b.1
      (srt.map Prod.fst, (gauss (srt.map Prod.snd)).map fun r => max r (1/10))
    else (heights, areas.map fun a => sqrtK (max (a / piq) (1/100)))

theorem mem_of_mem_dedupByKey (x : ℚ × ℚ) :
    ∀ l : List (ℚ × ℚ), x ∈ dedupByKey l → x ∈ l := by
  intro l
  induction l using dedupByKey.induct with
  | case1 => simp [dedupByKey]
  | case2 p ps ih =>
      rw [dedupByKey]
      intro hx
      rcases List.mem_cons.mp hx with h0 | hmem
      · exact h0 ▸ List.mem_cons_self _ _
      · exact List.mem_cons_of_mem _ (List.mem_of_mem_filter (ih hmem))

theorem pairwise_ne_dedupByKey :
    ∀ l : List (ℚ × ℚ), (dedupByKey l).Pairwise fun a b => a.1 ≠ b.1 := by
  intro l
  induction l using dedupByKey.induct with
  | case1 => simp [dedupByKey]
  | case2 p ps ih =>
      rw [dedupByKey]
      refine List.pairwise_cons.mpr ⟨?_, ih⟩
      intro q hq
      have hmem := mem_of_mem_dedupByKey q _ hq
      have := List.of_mem_filter hmem
      simp at this
      exact fun h => this (h.symm)

/-- C3: for every segment list and every area table with strictly
increasing heights, the reconstructed profile has strictly increasing
heights and every radius at least the 0.1 floor, in the single-segment path
and the multi-segment spline-blended path alike (`sqrtK` is any function
with `sqrt(x) ≥ 0.1` for `x ≥ 0.01`, as `np.sqrt` is). -/
theorem profile_invariants (sqrtK : ℚ → ℚ) (piq tension : ℚ)
    (gauss : List ℚ → List ℚ) (segments : List Segment)
    (heights areas : List ℚ)
    (hh : heights.Chain' (· < ·))
    (hsq : ∀ x : ℚ, 1/100 ≤ x → 1/10 ≤ sqrtK x) :
    (create_enhanced_profile sqrtK piq tension gauss segments heights
        areas).1.Chain' (· < ·) ∧
    ∀ r ∈ (create_enhanced_profile sqrtK piq tension gauss segments heights
        areas).2, 1/10 ≤ r := by
  have hdirect : ∀ r ∈ areas.map fun a => sqrtK (max (a / piq) (1/100)),
      1/10 ≤ r := by
    intro r hr
    obtain ⟨a, _, rfl⟩ := List.mem_map.mp hr
    exact hsq _ (le_max_right _ _)
  simp only [create_enhanced_profile]
  split
  · exact ⟨hh, hdirect⟩
  · split
    · constructor
      · letI : IsTotal (ℚ × ℚ) (fun a b : ℚ × ℚ => a.1 ≤ b.1) :=
          ⟨fun a b => le_total a.1 b.1⟩
        letI : IsTrans (ℚ × ℚ) (fun a b : ℚ × ℚ => a.1 ≤ b.1) :=
          ⟨fun _ _ _ h1 h2 => le_trans h1 h2⟩
        have hsorted := List.sorted_insertionSort
          (fun a b : ℚ × ℚ => a.1 ≤ b.1)
          (dedupByKey (profileLoop sqrtK piq tension heights areas segments))
        have hperm := List.perm_insertionSort
          (fun a b : ℚ × ℚ => a.1 ≤ b.1)
          (dedupByKey (profileLoop sqrtK piq tension heights areas segments))
        have hne := (List.Perm.pairwise_iff
          (fun {_ _} h => Ne.symm h) hperm).mpr
          (pairwise_ne_dedupByKey
            (profileLoop sqrtK piq tension heights areas segments))
        have hlt := (hsorted.and hne).imp
          (fun h => lt_of_le_of_ne h.1 h.2)
        exact List.chain'_iff_pairwise.mpr (List.pairwise_map.mpr hlt)
      · intro r hr
        obtain ⟨x, _, rfl⟩ := List.mem_map.mp hr
        exact le_max_right _ _
    · exact ⟨hh, hdirect⟩

/-- Concrete instantiation of C3: a two-cylinder segment list over a
3-point table, with `sqrt` instantiated by a function satisfying the
required floor property. -/
theorem profile_invariants_witness :
    (([1, 2, 3] : List ℚ).Chain' (· < ·) ∧
      (∀ x : ℚ, 1/100 ≤ x → 1/10 ≤ max x (1/10))) ∧
    ((create_enhanced_profile (fun x => max x (1/10)) 3 (3/5) id
        [⟨0, 1, ShapeKind.cylinder, [1]⟩, ⟨1, 2, ShapeKind.cylinder, [1]⟩]
        [1, 2, 3] [3, 3, 3]).1.Chain' (· < ·) ∧
      ∀ r ∈ (create_enhanced_profile (fun x => max x (1/10)) 3 (3/5) id
        [⟨0, 1, ShapeKind.cylinder, [1]⟩, ⟨1, 2, ShapeKind.cylinder, [1]⟩]
        [1, 2, 3] [3, 3, 3]).2, 1/10 ≤ r) :=
  ⟨⟨List.chain'_cons.mpr ⟨by decide, List.chain'_pair.mpr (by decide)⟩,
      fun x _ => le_max_right x (1/10)⟩,
    profile_invariants (fun x => max x (1/10)) 3 (3/5) id
      [⟨0, 1, ShapeKind.cylinder, [1]⟩, ⟨1, 2, ShapeKind.cylinder, [1]⟩]
      [1, 2, 3] [3, 3, 3]
      (List.chain'_cons.mpr ⟨by decide, List.chain'_pair.mpr (by decide)⟩)
      (fun x _ => le_max_right x (1/10))⟩

end ContainerGeometry
